import Mathlib

/-!
# Verification of the NFL team-stats dashboard pipeline

Shallow embedding of `src/fantasy_app.py`: the table normalizer
(`scrape_table` / `convert_numeric`), the stat aggregator
(`scrape_all_stats` with its outer-join merge, derived Δ% columns and the
`reorder` step), the trend classifier (`highlight_trends`) and the
green-only row filters.

Modelling conventions:
* pandas cell values are modelled by `FVal`: either missing (`nan`,
  covering both NaN and Python `None` after numeric coercion), one of the
  two IEEE infinities (which pandas float division by zero produces), or a
  finite number.  Finite float arithmetic is idealized over `ℚ` (the
  claims under scrutiny concern missing/zero/threshold behaviour, not
  rounding).  `ℚ` has no negative zero; division of a finite number by
  zero takes the sign of the numerator, matching numpy for the `+0.0`
  denominators this pipeline can produce.
* HTTP fetching and HTML parsing are external collaborators: a fetch is
  modelled as a `FetchOutcome` (a raised exception, a page with no
  `<table>`, or a raw header/row grid).
* `pd.DataFrame(rows, columns=headers)` on a non-empty list of lists pads
  ragged rows with `None` up to the widest row and raises `ValueError`
  when that width differs from the number of column labels; `mkDF` embeds
  exactly that behaviour.
* `pd.to_numeric(errors := coerce)` is modelled for plain decimal
  literals (optional sign, optional fractional part); anything else
  coerces to missing.
-/

/-- A pandas cell value: missing (NaN / None), an infinity, or a finite
number (idealized as a rational). -/
inductive FVal where
  | nan : FVal
  | pinf : FVal
  | ninf : FVal
  | num : ℚ → FVal
deriving DecidableEq, Repr

namespace FVal

/-- `pd.notnull`: everything except NaN (infinities included) is non-null. -/
def notnull : FVal → Bool
  | nan => false
  | _ => true

/-- Float subtraction (pandas Series `-`). -/
def fsub : FVal → FVal → FVal
  | nan, _ => nan
  | _, nan => nan
  | pinf, pinf => nan
  | pinf, ninf => pinf
  | pinf, num _ => pinf
  | ninf, ninf => nan
  | ninf, pinf => ninf
  | ninf, num _ => ninf
  | num _, pinf => ninf
  | num _, ninf => pinf
  | num a, num b => num (a - b)

/-- Float division (pandas Series `/`): a nonzero finite number divided by
zero is a signed infinity, `0/0` is NaN. -/
def fdiv : FVal → FVal → FVal
  | nan, _ => nan
  | _, nan => nan
  | pinf, pinf => nan
  | pinf, ninf => nan
  | ninf, pinf => nan
  | ninf, ninf => nan
  | pinf, num b => if b < 0 then ninf else pinf
  | ninf, num b => if b < 0 then pinf else ninf
  | num _, pinf => num 0
  | num _, ninf => num 0
  | num a, num b =>
    if b = 0 then (if a = 0 then nan else if a < 0 then ninf else pinf)
    else num (a / b)

/-- Float multiplication (pandas Series `*`). -/
def fmul : FVal → FVal → FVal
  | nan, _ => nan
  | _, nan => nan
  | pinf, pinf => pinf
  | pinf, ninf => ninf
  | ninf, pinf => ninf
  | ninf, ninf => pinf
  | pinf, num b => if b = 0 then nan else if b < 0 then ninf else pinf
  | ninf, num b => if b = 0 then nan else if b < 0 then pinf else ninf
  | num a, pinf => if a = 0 then nan else if a < 0 then ninf else pinf
  | num a, ninf => if a = 0 then nan else if a < 0 then pinf else ninf
  | num a, num b => num (a * b)

/-- Float comparison `v > q` against a finite constant (NaN compares false). -/
def fgt (v : FVal) (q : ℚ) : Bool :=
  match v with
  | nan => false
  | pinf => true
  | ninf => false
  | num a => decide (q < a)

/-- Float comparison `v < q` against a finite constant (NaN compares false). -/
def flt (v : FVal) (q : ℚ) : Bool :=
  match v with
  | nan => false
  | pinf => false
  | ninf => true
  | num a => decide (a < q)

/-- `Series.abs`. -/
def fabs : FVal → FVal
  | nan => nan
  | pinf => pinf
  | ninf => pinf
  | num a => num |a|

end FVal

open FVal

/-- ASCII lower-casing of one character (`str.lower()`; the headers this
pipeline meets are ASCII). -/
def charLower (c : Char) : Char :=
  if 65 ≤ c.toNat ∧ c.toNat ≤ 90 then Char.ofNat (c.toNat + 32) else c

/-- Substring test (`needle in haystack`). -/
def strContains (s pat : String) : Bool :=
  (List.range (s.data.length + 1)).any
    (fun i => pat.data.isPrefixOf (s.data.drop i))

/-- Case-insensitive substring test (`needle in haystack.lower()` with an
already lower-case needle). -/
def strContainsLower (s pat : String) : Bool :=
  strContains ⟨s.data.map charLower⟩ pat

/-- Value of an ASCII digit character. -/
def digitToNat (c : Char) : ℕ := c.toNat - 48

/-- Accumulator-style decimal evaluation of a digit list, as a parser
computes it left to right. -/
def digitsVal (l : List Char) : ℕ :=
  l.foldl (fun n c => 10 * n + digitToNat c) 0

/-- Parse an unsigned decimal literal (digits with at most one point, at
least one digit overall), the fragment of `pd.to_numeric` string parsing
this pipeline exercises. -/
def parseFloatChars (l : List Char) : Option ℚ :=
  let ip := l.takeWhile (fun c => c ≠ '.')
  let rest := l.dropWhile (fun c => c ≠ '.')
  match rest with
  | [] =>
    if ip ≠ [] ∧ ip.all Char.isDigit then some (digitsVal ip) else none
  | _ :: fp =>
    if (ip ≠ [] ∨ fp ≠ []) ∧ ip.all Char.isDigit ∧ fp.all Char.isDigit then
      some ((digitsVal ip : ℚ) + (digitsVal fp : ℚ) / (10 : ℚ) ^ fp.length)
    else none

/-- Signed decimal parsing: models the string side of
`pd.to_numeric(..., errors = coerce)`. -/
def parseFloat (s : String) : Option ℚ :=
  match s.data with
  | '-' :: rest => (parseFloatChars rest).map (fun q => -q)
  | '+' :: rest => parseFloatChars rest
  | l => parseFloatChars l

/-- `str.replace(",", "").replace("%", "")` — strip every thousands
separator and percent sign. -/
def strip_cell (s : String) : String :=
  ⟨s.data.filter (fun c => c ≠ ',' ∧ c ≠ '%')⟩

/-- The placeholder tokens replaced by `None` in `convert_numeric`. -/
def missingTokens : List String := ["—", "-", "", "None", "nan"]

/-- Per-cell behaviour of `convert_numeric` on a non-Team column:
`astype(str)` (Python `None` prints as `"None"`), strip separators and
percent signs, replace placeholder tokens by `None`, then
`pd.to_numeric(errors = coerce)`. -/
def to_numeric_cell (o : Option String) : FVal :=
  let s := match o with
    | none => "None"
    | some s => s
  let s := strip_cell s
  if s ∈ missingTokens then FVal.nan
  else
    match parseFloat s with
    | some q => FVal.num q
    | none => FVal.nan

/-- Specification-side value of a decimal literal with integer digits
`ip` and fractional digits `fp`, via positional notation
(most-significant first, hence the reverse for `Nat.ofDigits`). -/
def decValue (ip fp : List Char) : ℚ :=
  ((Nat.ofDigits 10 ((ip.map digitToNat).reverse) : ℕ) : ℚ) +
    ((Nat.ofDigits 10 ((fp.map digitToNat).reverse) : ℕ) : ℚ) /
      (10 : ℚ) ^ fp.length

/-- `l` is an unsigned decimal literal denoting `q`: either a non-empty
digit string, or digits around one decimal point with at least one digit
overall. -/
def DecimalText (l : List Char) (q : ℚ) : Prop :=
  (l ≠ [] ∧ l.all Char.isDigit = true ∧ q = decValue l []) ∨
  (∃ ip fp, l = ip ++ '.' :: fp ∧ (ip ≠ [] ∨ fp ≠ []) ∧
    ip.all Char.isDigit = true ∧ fp.all Char.isDigit = true ∧
    q = decValue ip fp)

/-- `l` is a (possibly signed) decimal literal denoting `q`. -/
def NumericText (l : List Char) (q : ℚ) : Prop :=
  DecimalText l q ∨
  (∃ t q0, l = '-' :: t ∧ DecimalText t q0 ∧ q = -q0) ∨
  (∃ t, l = '+' :: t ∧ DecimalText t q)

/-! ## Raw tables and the normalizer (`scrape_table`) -/

/-- A raw dataframe as built by `pd.DataFrame(rows, columns=headers)`:
column labels plus rows of object cells (`some s` a string scraped from a
`<td>`, `none` the Python `None` used to pad short rows). -/
structure RawDF where
  headers : List String
  rows : List (List (Option String))
deriving DecidableEq, Repr

/-- `pd.DataFrame(rows, columns=headers)` on a list of lists: an empty
list gives an empty frame with the requested columns; otherwise ragged
rows are padded with `None` to the widest row, and a `ValueError` is
raised when that width differs from the number of labels. -/
def mkDF (rows : List (List String)) (headers : List String) :
    Except String RawDF :=
  match rows with
  | [] => .ok ⟨headers, []⟩
  | _ =>
    let k := (rows.map List.length).foldl max 0
    if k = headers.length then
      .ok ⟨headers,
        rows.map (fun r => r.map some ++ List.replicate (k - r.length) none)⟩
    else
      .error (toString headers.length ++
        " columns passed, passed data had " ++ toString k ++ " columns")

/-- The non-data columns dropped by exact name. -/
def dropNames : List String := ["Home", "Away", "2024", "Rank"]

/-- `df.drop(columns=[Home, Away, 2024, Rank], errors=ignore)`. -/
def dropCols (df : RawDF) : RawDF :=
  ⟨df.headers.filter (fun h => h ∉ dropNames),
   df.rows.map (fun r =>
     ((df.headers.zip r).filter (fun p => p.1 ∉ dropNames)).map Prod.snd)⟩

/-- Column extraction `df[name]`; with duplicate labels pandas would
return every matching column, but no duplicate canonical labels arise in
this pipeline, so the first occurrence is taken. -/
def getCol (df : RawDF) (name : String) : List (Option String) :=
  let idx := df.headers.indexOf name
  df.rows.map (fun r => r.getD idx none)

/-- A normalized `StatTable`: the `Team` column (object cells) plus one or
two numeric value columns (canonical names in `cols`, cell values per row
in `vals`, aligned with `cols`). -/
structure NormDF where
  team : List (Option String)
  cols : List String
  vals : List (List FVal)
deriving DecidableEq, Repr

/-- Python truthiness of an optional string (`not x` for `x : str | None`). -/
def pyFalsy : Option String → Bool
  | none => true
  | some s => s = ""

/-- Python `!=` against an optional string (`col != team_col`, where
`team_col` may be `None`). -/
def pyNe (c : String) (o : Option String) : Bool :=
  match o with
  | none => true
  | some t => c ≠ t

/-- The outcome of `requests.get` + `BeautifulSoup` on one stat page: an
exception somewhere in fetch/parse (network error, non-2xx status), a
page without a `<table>`, or the raw header/row grid of the first table
(`trs` holds the `<td>` texts of every `<tr>`; header cells are `<th>`,
so a header row contributes an empty `<td>` list). -/
inductive FetchOutcome where
  | exn (msg : String)
  | noTable
  | found (headers : List String) (trs : List (List String))
deriving DecidableEq, Repr

/-- `scrape_table(url, stat_name)`: fetch, locate the table, build the
dataframe, identify Team / stat / Last-3 columns by fuzzy matching,
select, rename to canonical names and coerce to numeric.  Returns the
normalized table or a human-readable error, with the whole body guarded
by `try/except`. -/
def scrape_table (outcome : FetchOutcome) (stat_name : String) :
    Option NormDF × Option String :=
  match outcome with
  | .exn e => (none, some ("Error scraping " ++ stat_name ++ ": " ++ e))
  | .noTable => (none, some ("No table found for " ++ stat_name))
  | .found headers trs =>
    let rows := (trs.drop 1).filter (fun r => r ≠ [])
    match mkDF rows headers with
    | .error e => (none, some ("Error scraping " ++ stat_name ++ ": " ++ e))
    | .ok df0 =>
      let df1 := dropCols df0
      let team_col := df1.headers.find? (fun c => strContainsLower c "team")
      let stat_col := df1.headers.find?
        (fun c => pyNe c team_col && ! strContainsLower c "last 3")
      let last3_col := df1.headers.find? (fun c => strContainsLower c "last 3")
      if pyFalsy team_col || pyFalsy stat_col then
        (none, some ("Could not find Team or Stat column for " ++ stat_name))
      else
        match team_col, stat_col with
        | some tc, some sc =>
          let teamCells := getCol df1 tc
          let statCells := (getCol df1 sc).map to_numeric_cell
          match last3_col with
          | some lc =>
            let l3Cells := (getCol df1 lc).map to_numeric_cell
            (some ⟨teamCells, [stat_name, stat_name ++ " (Last 3)"],
              (statCells.zip l3Cells).map (fun p => [p.1, p.2])⟩, none)
          | none =>
            (some ⟨teamCells, [stat_name], statCells.map (fun v => [v])⟩, none)
        | _, _ =>
          (none, some ("Could not find Team or Stat column for " ++ stat_name))

/-! ## The stat aggregator (`scrape_all_stats`) -/

/-- A merge key: the object stored in the `Team` column (a string, or the
`None` a padded row carries). -/
abbrev TeamKey := Option String

/-- A (merged) dataframe viewed relationally: the ordered team keys
(one per row), the ordered value-column labels, and the cell contents.
`cell t c` is only meaningful for `t ∈ teams` and `c ∈ cols`; tables
produced by the pipeline hold `nan` outside their own teams (`Wf`
below). -/
structure Table where
  teams : List TeamKey
  cols : List String
  cell : TeamKey → String → FVal

/-- `pd.DataFrame()` — the empty frame returned when no stat succeeds. -/
def emptyTable : Table := ⟨[], [], fun _ _ => FVal.nan⟩

/-- Cells are missing outside the table's own rows. -/
def Table.Wf (m : Table) : Prop :=
  ∀ t c, t ∉ m.teams → m.cell t c = FVal.nan

/-- View a normalized `StatTable` relationally. -/
def NormDF.toTable (n : NormDF) : Table :=
  { teams := n.team
    cols := n.cols
    cell := fun t c =>
      match (n.team.zip n.vals).find? (fun p => p.1 = t) with
      | some p => (p.2.getD (n.cols.indexOf c) FVal.nan)
      | none => FVal.nan }

/-- One step of the sequential fold
`merged = pd.merge(merged, df, on=Team, how=outer)`: row keys are the
left keys followed by the new right keys, columns are the left columns
followed by the right ones, a side's columns are missing for teams absent
from that side. -/
def mergeStep (m t : Table) : Table :=
  { teams := m.teams ++ t.teams.filter (fun x => x ∉ m.teams)
    cols := m.cols ++ t.cols
    cell := fun team col =>
      if col ∈ m.cols then
        (if team ∈ m.teams then m.cell team col else FVal.nan)
      else
        (if team ∈ t.teams then t.cell team col else FVal.nan) }

/-- `merged = all_dfs[0]; for df in all_dfs[1:]: merged = merge(...)`. -/
def mergeAll : List Table → Table
  | [] => emptyTable
  | t :: ts => ts.foldl mergeStep t

/-- The two delta-eligible base stats. -/
def rushBase : String := "Opponent Rushing Yards per Game"

def passBase : String := "Opponent Passing Yards per Game"

def deltaBases : List String := [rushBase, passBase]

/-- Canonical Last-3 column label of a base stat. -/
def last3Name (b : String) : String := b ++ " (Last 3)"

/-- Canonical derived-delta column label of a base stat. -/
def deltaName (b : String) : String := b ++ " Δ% (Last 3)"

/-- The derived delta:
`((merged[last3] - merged[base]) / merged[base]) * 100` in pandas float
arithmetic. -/
def deltaVal (season last3 : FVal) : FVal :=
  fmul (fdiv (fsub last3 season) season) (FVal.num 100)

/-- `merged[delta] = ...` for one base stat, guarded by both columns
existing; column assignment appends a new label (pandas keeps the
position of an existing one). -/
def addDelta (m : Table) (b : String) : Table :=
  if b ∈ m.cols ∧ last3Name b ∈ m.cols then
    { teams := m.teams
      cols := if deltaName b ∈ m.cols then m.cols else m.cols ++ [deltaName b]
      cell := fun t c =>
        if c = deltaName b then deltaVal (m.cell t b) (m.cell t (last3Name b))
        else m.cell t c }
  else m

/-- The derived-Δ% loop over both eligible base stats. -/
def addDeltas (m : Table) : Table := deltaBases.foldl addDelta m

/-- One pass of the column-reordering loop: when both the Last-3 and the
delta labels are present, pop the delta label (`cols.pop` at its first
index) and re-insert it at (pre-pop Last-3 index) + 1. -/
def moveDelta (cs : List String) (b : String) : List String :=
  if last3Name b ∈ cs ∧ deltaName b ∈ cs then
    (cs.erase (deltaName b)).insertIdx
      (cs.indexOf (last3Name b) + 1) (deltaName b)
  else cs

/-- The column-reordering function `reorder` (on labels). -/
def reorder (cols : List String) : List String :=
  deltaBases.foldl moveDelta cols

/-- `df[cols]` after `reorder`: same rows and cells, reordered labels. -/
def reorderTable (m : Table) : Table :=
  { m with cols := reorder m.cols }

/-- The fixed endpoint catalog `STAT_PAGES` (ordered). -/
def STAT_PAGES : List (String × String) :=
  [("Touchdowns per Game", "touchdowns-per-game"),
   ("Opponent Touchdowns per Game", "opponent-touchdowns-per-game"),
   ("Opponent Rushing Yards per Game", "opponent-rushing-yards-per-game"),
   ("Opponent Passing Yards per Game", "opponent-passing-yards-per-game"),
   ("Red Zone Scoring Attempts per Game", "red-zone-scoring-attempts-per-game"),
   ("Red Zone Scoring %", "red-zone-scoring-pct"),
   ("Opponent Red Zone Attempts per Game",
     "opponent-red-zone-scoring-attempts-per-game"),
   ("Opponent Red Zone Scoring %", "opponent-red-zone-scoring-pct"),
   ("Time of Possession % (Net of OT)", "time-of-possession-pct-net-of-ot")]

def BASE_URL : String := "https://www.teamrankings.com/nfl/stat/"

/-- The accumulation step of the scraping loop: `if err:
errors.append(err)` (Python truthiness: an empty error string appends
nothing) `elif df is not None: all_dfs.append(df)`. -/
def collectStep (fetch : String → FetchOutcome)
    (acc : List NormDF × List String) (p : String × String) :
    List NormDF × List String :=
  let r := scrape_table (fetch (BASE_URL ++ p.2)) p.1
  if (match r.2 with | some e => e ≠ "" | none => false : Bool) then
    (acc.1, acc.2 ++ [r.2.getD ""])
  else
    match r.1 with
    | some df => (acc.1 ++ [df], acc.2)
    | none => acc

/-- `scrape_all_stats()`, parameterized by the fetch collaborator: scrape
every configured stat page, collect errors, outer-join the successes,
append the derived Δ% columns and reorder.  An empty success list yields
`(pd.DataFrame(), errors)`. -/
def scrape_all_stats (fetch : String → FetchOutcome) :
    Table × List String :=
  let acc := STAT_PAGES.foldl (collectStep fetch) ([], [])
  match acc.1 with
  | [] => (emptyTable, acc.2)
  | d :: ds =>
    (reorderTable (addDeltas (mergeAll (d.toTable :: ds.map NormDF.toTable))),
      acc.2)

/-! ## Trend classifier (`highlight_trends`) and green-only filters -/

def rushDeltaCol : String := deltaName rushBase

def passDeltaCol : String := deltaName passBase

def greenStyle : String := "background-color: lightgreen; color: black;"

/-- One branch of `highlight_trends`: when both columns are in the row's
index and both values are non-null and the season value beats the
threshold while `abs(delta) < 10`, paint the delta cell green. -/
def hlStep (cols : List String) (row : String → FVal) (base delta : String)
    (thr : ℚ) (styles : List String) : List String :=
  if base ∈ cols ∧ delta ∈ cols then
    if notnull (row base) ∧ notnull (row delta) then
      if fgt (row base) thr ∧ flt (fabs (row delta)) 10 then
        styles.set (cols.indexOf delta) greenStyle
      else styles
    else styles
  else styles

/-- `highlight_trends(row)`: start from all-empty styles, run the rushing
branch (threshold 100) then the passing branch (threshold 200). -/
def highlight_trends (cols : List String) (row : String → FVal) :
    List String :=
  hlStep cols row passBase passDeltaCol 200
    (hlStep cols row rushBase rushDeltaCol 100
      (List.replicate cols.length ""))

/-- The rushing row-filter mask
`(df[rushBase] > 100) & (df[rushDeltaCol].abs() < 10)`. -/
def filterMaskRush (row : String → FVal) : Bool :=
  fgt (row rushBase) 100 && flt (fabs (row rushDeltaCol)) 10

/-- The passing row-filter mask
`(df[passBase] > 200) & (df[passDeltaCol].abs() < 10)`. -/
def filterMaskPass (row : String → FVal) : Bool :=
  fgt (row passBase) 200 && flt (fabs (row passDeltaCol)) 10

/-- Boolean-mask row filtering with the rushing mask. -/
def filter_rush (rows : List (String → FVal)) : List (String → FVal) :=
  rows.filter filterMaskRush

/-- Boolean-mask row filtering with the passing mask. -/
def filter_pass (rows : List (String → FVal)) : List (String → FVal) :=
  rows.filter filterMaskPass

/-! ## Helper lemmas -/

theorem digitsVal_eq_ofDigits (l : List Char) :
    digitsVal l = Nat.ofDigits 10 ((l.map digitToNat).reverse) := by
  suffices h : ∀ (l : List Char) (acc : ℕ),
      l.foldl (fun n c => 10 * n + digitToNat c) acc =
        acc * 10 ^ l.length + Nat.ofDigits 10 ((l.map digitToNat).reverse) by
    simpa using h l 0
  intro l
  induction l with
  | nil => intro acc; simp
  | cons c t ih =>
    intro acc
    rw [List.foldl_cons, ih, List.map_cons, List.reverse_cons,
      Nat.ofDigits_append]
    simp [Nat.ofDigits_cons, Nat.ofDigits_nil, pow_succ]
    ring

theorem takeWhile_all {p : Char → Bool} (l : List Char)
    (h : ∀ c ∈ l, p c = true) :
    l.takeWhile p = l ∧ l.dropWhile p = [] := by
  induction l with
  | nil => simp
  | cons c t ih =>
    have hc := h c (by simp)
    have ht := ih (fun x hx => h x (by simp [hx]))
    simp [List.takeWhile_cons, List.dropWhile_cons, hc, ht.1, ht.2]

theorem takeWhile_append_cons {p : Char → Bool} (l₁ : List Char) (x : Char)
    (l₂ : List Char) (h1 : ∀ c ∈ l₁, p c = true) (h2 : p x = false) :
    (l₁ ++ x :: l₂).takeWhile p = l₁ ∧
      (l₁ ++ x :: l₂).dropWhile p = x :: l₂ := by
  induction l₁ with
  | nil => simp [List.takeWhile_cons, List.dropWhile_cons, h2]
  | cons c t ih =>
    have hc := h1 c (by simp)
    have ht := ih (fun y hy => h1 y (by simp [hy]))
    simp [List.takeWhile_cons, List.dropWhile_cons, hc, ht.1, ht.2]

theorem isDigit_ne_dot {c : Char} (h : c.isDigit = true) : c ≠ '.' := by
  intro e
  subst e
  exact absurd h (by decide)

theorem parseFloatChars_spec {l : List Char} {q : ℚ}
    (h : DecimalText l q) : parseFloatChars l = some q := by
  rcases h with ⟨hne, hdig, hval⟩ | ⟨ip, fp, rfl, hne, hip, hfp, hval⟩
  · have hall : ∀ c ∈ l, (fun c => decide (c ≠ '.')) c = true := by
      intro c hc
      simp only [decide_eq_true_eq]
      exact isDigit_ne_dot (List.all_eq_true.mp hdig c hc)
    have ht := takeWhile_all l hall
    unfold parseFloatChars
    rw [ht.1, ht.2]
    simp only [hne, hdig, ne_eq, not_false_eq_true, and_self, if_true,
      Option.some.injEq]
    rw [hval, digitsVal_eq_ofDigits]
    simp [decValue, Nat.ofDigits_nil]
  · have hall : ∀ c ∈ ip, (fun c => decide (c ≠ '.')) c = true := by
      intro c hc
      simp only [decide_eq_true_eq]
      exact isDigit_ne_dot (List.all_eq_true.mp hip c hc)
    have ht := takeWhile_append_cons ip '.' fp hall (by decide)
    unfold parseFloatChars
    rw [ht.1, ht.2]
    simp only [hne, hip, hfp, and_self, and_true, if_true, Option.some.injEq]
    rw [hval, digitsVal_eq_ofDigits, digitsVal_eq_ofDigits]
    simp [decValue]

theorem DecimalText_head {l : List Char} {q : ℚ} (h : DecimalText l q)
    {c : Char} {rest : List Char} (he : l = c :: rest) :
    c.isDigit = true ∨ c = '.' := by
  subst he
  rcases h with ⟨_, hdig, _⟩ | ⟨ip, fp, heq, _, hip, _, _⟩
  · exact Or.inl (List.all_eq_true.mp hdig c (by simp))
  · cases ip with
    | nil => simp at heq; exact Or.inr heq.1
    | cons a t =>
      have heq' : c :: rest = a :: (t ++ '.' :: fp) := by simpa using heq
      have ha : c = a := List.head_eq_of_cons_eq heq'
      subst ha
      exact Or.inl (List.all_eq_true.mp hip c (by simp))

theorem DecimalText_char {l : List Char} {q : ℚ} (h : DecimalText l q) :
    ∃ c, c ∈ l ∧ (c.isDigit = true ∨ c = '.') := by
  rcases h with ⟨hne, hdig, _⟩ | ⟨ip, fp, heq, _, _, _, _⟩
  · cases l with
    | nil => exact absurd rfl hne
    | cons c t =>
      exact ⟨c, by simp, Or.inl (List.all_eq_true.mp hdig c (by simp))⟩
  · exact ⟨'.', by simp [heq], Or.inr rfl⟩

theorem parseFloat_spec {s : String} {q : ℚ}
    (h : NumericText s.data q) : parseFloat s = some q := by
  unfold parseFloat
  rcases h with hd | ⟨t, q0, he, hd, rfl⟩ | ⟨t, he, hd⟩
  · split
    · next rest heq =>
      rcases DecimalText_head hd heq with h1 | h1 <;>
        exact absurd h1 (by decide)
    · next rest heq =>
      rcases DecimalText_head hd heq with h1 | h1 <;>
        exact absurd h1 (by decide)
    · next heq1 heq2 =>
      exact parseFloatChars_spec hd
  · split
    · next rest heq =>
      have h2 : t = rest := List.tail_eq_of_cons_eq (he.symm.trans heq)
      subst h2
      rw [parseFloatChars_spec hd]
      rfl
    · next rest heq =>
      exact absurd (List.head_eq_of_cons_eq (he.symm.trans heq)) (by decide)
    · next heq1 _ =>
      exact (heq1 t he).elim
  · split
    · next rest heq =>
      exact absurd (List.head_eq_of_cons_eq (he.symm.trans heq)) (by decide)
    · next rest heq =>
      have h2 : t = rest := List.tail_eq_of_cons_eq (he.symm.trans heq)
      subst h2
      exact parseFloatChars_spec hd
    · next _ heq2 =>
      exact (heq2 t he).elim

theorem noDecimalText {L : List Char} {q' : ℚ}
    (hno : ∀ c ∈ L, ¬(c.isDigit = true ∨ c = '.')) (hd : DecimalText L q') :
    False := by
  obtain ⟨c, hc, hcd⟩ := DecimalText_char hd
  exact hno c hc hcd

theorem NumericText_not_missing {l : List Char} {q : ℚ}
    (h : NumericText l q) (hm : l ∈ missingTokens.map String.data) :
    False := by
  have hm' : l = ['—'] ∨ l = ['-'] ∨ l = [] ∨
      l = ['N', 'o', 'n', 'e'] ∨ l = ['n', 'a', 'n'] := by
    simpa [missingTokens, String.data] using hm
  rcases hm' with rfl | rfl | rfl | rfl | rfl
  · rcases h with hd | ⟨t, q0, he, hd, _⟩ | ⟨t, he, hd⟩
    · exact noDecimalText (by decide) hd
    · exact absurd (List.head_eq_of_cons_eq he.symm) (by decide)
    · exact absurd (List.head_eq_of_cons_eq he.symm) (by decide)
  · rcases h with hd | ⟨t, q0, he, hd, _⟩ | ⟨t, he, hd⟩
    · exact noDecimalText (by decide) hd
    · have ht := List.tail_eq_of_cons_eq he
      rw [← ht] at hd
      exact noDecimalText (by decide) hd
    · exact absurd (List.head_eq_of_cons_eq he.symm) (by decide)
  · rcases h with hd | ⟨t, q0, he, hd, _⟩ | ⟨t, he, hd⟩
    · exact noDecimalText (by decide) hd
    · exact List.noConfusion he
    · exact List.noConfusion he
  · rcases h with hd | ⟨t, q0, he, hd, _⟩ | ⟨t, he, hd⟩
    · exact noDecimalText (by decide) hd
    · exact absurd (List.head_eq_of_cons_eq he.symm) (by decide)
    · exact absurd (List.head_eq_of_cons_eq he.symm) (by decide)
  · rcases h with hd | ⟨t, q0, he, hd, _⟩ | ⟨t, he, hd⟩
    · exact noDecimalText (by decide) hd
    · exact absurd (List.head_eq_of_cons_eq he.symm) (by decide)
    · exact absurd (List.head_eq_of_cons_eq he.symm) (by decide)

/-! ## C6: numeric coercion of placeholder tokens and numeric text -/

/-- C6: in `convert_numeric`, a cell of a non-Team column whose text
(after stripping thousands separators and percent signs) is one of the
placeholder tokens coerces to a missing value (in particular never to
zero), and a cell whose stripped text is decimal numeric text coerces to
the number it denotes. -/
theorem C6_convert_numeric_tokens_and_numbers (s : String) :
    (strip_cell s ∈ missingTokens → to_numeric_cell (some s) = FVal.nan) ∧
    ∀ q : ℚ, NumericText (strip_cell s).data q →
      to_numeric_cell (some s) = FVal.num q := by
  constructor
  · intro hmem
    unfold to_numeric_cell
    simp [hmem]
  · intro q h
    have hnot : strip_cell s ∉ missingTokens := by
      intro hmem
      exact NumericText_not_missing h (List.mem_map_of_mem _ hmem)
    unfold to_numeric_cell
    simp only
    rw [if_neg hnot, parseFloat_spec h]

set_option maxRecDepth 10000 in
/-- Witness for C6 at the token `"—"` and the numeric cell `"1,234"`. -/
theorem C6_convert_numeric_tokens_and_numbers_witness :
    to_numeric_cell (some "—") = FVal.nan ∧
      to_numeric_cell (some "1,234") = FVal.num 1234 := by
  refine ⟨(C6_convert_numeric_tokens_and_numbers "—").1 (by decide),
    (C6_convert_numeric_tokens_and_numbers "1,234").2 1234
      (Or.inl (Or.inl ⟨by decide, by decide, by with_unfolding_all decide⟩))⟩

/-! ## C2 and C3: the trend classifier and the green-only filters -/

theorem fgt_notnull {v : FVal} {q : ℚ} (h : fgt v q = true) :
    notnull v = true := by
  cases v <;> simp_all [fgt, notnull]

theorem flt_fabs_notnull {v : FVal} {q : ℚ} (h : flt (fabs v) q = true) :
    notnull v = true := by
  cases v <;> simp_all [flt, fabs, notnull]

theorem indexOf_ne_of_mem_ne {a b : String} {l : List String}
    (ha : a ∈ l) (hb : b ∈ l) (hab : a ≠ b) :
    l.indexOf a ≠ l.indexOf b := by
  intro h
  apply hab
  have hlta := List.indexOf_lt_length.mpr ha
  have hltb := List.indexOf_lt_length.mpr hb
  have hget : l.get ⟨l.indexOf a, hlta⟩ = l.get ⟨l.indexOf b, hltb⟩ :=
    congrArg l.get (Fin.ext h)
  rw [List.indexOf_get hlta, List.indexOf_get hltb] at hget
  exact hget

theorem hlStep_length (cols : List String) (row : String → FVal)
    (base delta : String) (thr : ℚ) (styles : List String) :
    (hlStep cols row base delta thr styles).length = styles.length := by
  unfold hlStep
  repeat' split
  all_goals simp

theorem hlStep_get_other (cols : List String) (row : String → FVal)
    (base delta : String) (thr : ℚ) (styles : List String) (i : ℕ)
    (hi : i ≠ cols.indexOf delta) :
    (hlStep cols row base delta thr styles)[i]? = styles[i]? := by
  unfold hlStep
  repeat' split
  · exact List.getElem?_set_ne (Ne.symm hi)
  all_goals rfl

theorem hlStep_no_guard (cols : List String) (row : String → FVal)
    (base delta : String) (thr : ℚ) (styles : List String)
    (h : ¬(base ∈ cols ∧ delta ∈ cols)) :
    hlStep cols row base delta thr styles = styles := by
  unfold hlStep
  rw [if_neg h]

theorem hlStep_green_iff (cols : List String) (row : String → FVal)
    (base delta : String) (thr : ℚ) (styles : List String)
    (hb : base ∈ cols) (hd : delta ∈ cols)
    (hlen : styles.length = cols.length)
    (hcur : styles[cols.indexOf delta]? = some "") :
    ((hlStep cols row base delta thr styles)[cols.indexOf delta]? =
        some greenStyle) ↔
      (notnull (row base) = true ∧ notnull (row delta) = true ∧
        fgt (row base) thr = true ∧ flt (fabs (row delta)) 10 = true) := by
  unfold hlStep
  rw [if_pos ⟨hb, hd⟩]
  by_cases hAB : (notnull (row base) = true ∧ notnull (row delta) = true)
  · by_cases hCD :
        (fgt (row base) thr = true ∧ flt (fabs (row delta)) 10 = true)
    · rw [if_pos hAB, if_pos hCD]
      have hlt : cols.indexOf delta < styles.length := by
        rw [hlen]
        exact List.indexOf_lt_length.mpr hd
      rw [List.getElem?_set_eq_of_lt _ hlt]
      simp [hAB.1, hAB.2, hCD.1, hCD.2]
    · rw [if_pos hAB, if_neg hCD, hcur]
      constructor
      · intro h
        exact absurd (Option.some.inj h) (by decide)
      · rintro ⟨-, -, h3, h4⟩
        exact absurd ⟨h3, h4⟩ hCD
  · rw [if_neg hAB, hcur]
    constructor
    · intro h
      exact absurd (Option.some.inj h) (by decide)
    · rintro ⟨h1, h2, -, -⟩
      exact absurd ⟨h1, h2⟩ hAB

theorem highlight_green_rush_iff (cols : List String) (row : String → FVal)
    (hb : rushBase ∈ cols) (hd : rushDeltaCol ∈ cols) :
    ((highlight_trends cols row)[cols.indexOf rushDeltaCol]? =
        some greenStyle) ↔
      (notnull (row rushBase) = true ∧ notnull (row rushDeltaCol) = true ∧
        fgt (row rushBase) 100 = true ∧
        flt (fabs (row rushDeltaCol)) 10 = true) := by
  unfold highlight_trends
  have hrepl : (List.replicate cols.length "")[cols.indexOf rushDeltaCol]? =
      some "" := by
    rw [List.getElem?_replicate]
    simp [List.indexOf_lt_length.mpr hd]
  have hinner := hlStep_green_iff cols row rushBase rushDeltaCol 100
    (List.replicate cols.length "") hb hd (by simp) hrepl
  by_cases hmem : passDeltaCol ∈ cols
  · have hne : cols.indexOf rushDeltaCol ≠ cols.indexOf passDeltaCol :=
      indexOf_ne_of_mem_ne hd hmem (by decide)
    rw [hlStep_get_other cols row passBase passDeltaCol 200 _ _ hne]
    exact hinner
  · rw [hlStep_no_guard cols row passBase passDeltaCol 200 _
      (fun h => hmem h.2)]
    exact hinner

theorem highlight_green_pass_iff (cols : List String) (row : String → FVal)
    (hb : passBase ∈ cols) (hd : passDeltaCol ∈ cols) :
    ((highlight_trends cols row)[cols.indexOf passDeltaCol]? =
        some greenStyle) ↔
      (notnull (row passBase) = true ∧ notnull (row passDeltaCol) = true ∧
        fgt (row passBase) 200 = true ∧
        flt (fabs (row passDeltaCol)) 10 = true) := by
  unfold highlight_trends
  have hrepl : (List.replicate cols.length "")[cols.indexOf passDeltaCol]? =
      some "" := by
    rw [List.getElem?_replicate]
    simp [List.indexOf_lt_length.mpr hd]
  have hcur : (hlStep cols row rushBase rushDeltaCol 100
      (List.replicate cols.length ""))[cols.indexOf passDeltaCol]? =
        some "" := by
    by_cases hmem : rushDeltaCol ∈ cols
    · have hne : cols.indexOf passDeltaCol ≠ cols.indexOf rushDeltaCol :=
        indexOf_ne_of_mem_ne hd hmem (by decide)
      rw [hlStep_get_other cols row rushBase rushDeltaCol 100 _ _ hne]
      exact hrepl
    · rw [hlStep_no_guard cols row rushBase rushDeltaCol 100 _
        (fun h => hmem h.2)]
      exact hrepl
  exact hlStep_green_iff cols row passBase passDeltaCol 200 _ hb hd
    (by rw [hlStep_length]; simp) hcur

/-- C2: `highlight_trends` marks a delta-eligible stat's Δ% cell green
exactly when the season value and the delta are both non-missing, the
season value strictly exceeds the threshold (100 rushing, 200 passing)
and the absolute delta is strictly below 10; moreover season 120 with
Last-3 108 gives delta exactly −10, which does not qualify (strict
bound). -/
theorem C2_highlight_green_characterization (cols : List String)
    (row : String → FVal)
    (h1 : rushBase ∈ cols) (h2 : rushDeltaCol ∈ cols)
    (h3 : passBase ∈ cols) (h4 : passDeltaCol ∈ cols) :
    (((highlight_trends cols row)[cols.indexOf rushDeltaCol]? =
        some greenStyle) ↔
      (notnull (row rushBase) = true ∧ notnull (row rushDeltaCol) = true ∧
        fgt (row rushBase) 100 = true ∧
        flt (fabs (row rushDeltaCol)) 10 = true)) ∧
    (((highlight_trends cols row)[cols.indexOf passDeltaCol]? =
        some greenStyle) ↔
      (notnull (row passBase) = true ∧ notnull (row passDeltaCol) = true ∧
        fgt (row passBase) 200 = true ∧
        flt (fabs (row passDeltaCol)) 10 = true)) ∧
    deltaVal (FVal.num 120) (FVal.num 108) = FVal.num (-10) ∧
    (∀ row2 : String → FVal, row2 rushBase = FVal.num 120 →
      row2 rushDeltaCol = FVal.num (-10) →
      ¬((highlight_trends cols row2)[cols.indexOf rushDeltaCol]? =
        some greenStyle)) := by
  refine ⟨highlight_green_rush_iff cols row h1 h2,
    highlight_green_pass_iff cols row h3 h4, ?_, ?_⟩
  · norm_num [deltaVal, fsub, fdiv, fmul]
  · intro row2 hrb hrd hgr
    rw [highlight_green_rush_iff cols row2 h1 h2] at hgr
    rcases hgr with ⟨-, -, -, habs⟩
    rw [hrd] at habs
    norm_num [flt, fabs] at habs

/-- Witness for C2: a concrete row with season 120 and delta −10 is not
marked green. -/
theorem C2_highlight_green_characterization_witness :
    deltaVal (FVal.num 120) (FVal.num 108) = FVal.num (-10) ∧
    ¬((highlight_trends [rushBase, rushDeltaCol, passBase, passDeltaCol]
        (fun c => if c = rushBase then FVal.num 120 else
          if c = rushDeltaCol then FVal.num (-10) else FVal.nan))[
          ([rushBase, rushDeltaCol, passBase,
            passDeltaCol].indexOf rushDeltaCol)]? = some greenStyle) := by
  have h := C2_highlight_green_characterization
    [rushBase, rushDeltaCol, passBase, passDeltaCol]
    (fun c => if c = rushBase then FVal.num 120 else
      if c = rushDeltaCol then FVal.num (-10) else FVal.nan)
    (by decide) (by decide) (by decide) (by decide)
  exact ⟨h.2.2.1, h.2.2.2 _ (by decide) (by decide)⟩

/-- C3: a row passes the green-only rushing (resp. passing) filter mask
exactly when `highlight_trends` would paint that row's rushing (resp.
passing) Δ% cell green — filtering and highlighting never diverge. -/
theorem C3_filter_agrees_with_highlight (cols : List String)
    (rows : List (String → FVal)) (row : String → FVal)
    (h1 : rushBase ∈ cols) (h2 : rushDeltaCol ∈ cols)
    (h3 : passBase ∈ cols) (h4 : passDeltaCol ∈ cols) :
    (row ∈ filter_rush rows ↔ row ∈ rows ∧
      (highlight_trends cols row)[cols.indexOf rushDeltaCol]? =
        some greenStyle) ∧
    (row ∈ filter_pass rows ↔ row ∈ rows ∧
      (highlight_trends cols row)[cols.indexOf passDeltaCol]? =
        some greenStyle) := by
  constructor
  · rw [filter_rush, List.mem_filter,
      highlight_green_rush_iff cols row h1 h2]
    apply and_congr_right
    intro _
    unfold filterMaskRush
    constructor
    · intro h
      have hgt := (Bool.and_eq_true _ _).mp h
      exact ⟨fgt_notnull hgt.1, flt_fabs_notnull hgt.2, hgt.1, hgt.2⟩
    · rintro ⟨-, -, hgt, hlt⟩
      simp [hgt, hlt]
  · rw [filter_pass, List.mem_filter,
      highlight_green_pass_iff cols row h3 h4]
    apply and_congr_right
    intro _
    unfold filterMaskPass
    constructor
    · intro h
      have hgt := (Bool.and_eq_true _ _).mp h
      exact ⟨fgt_notnull hgt.1, flt_fabs_notnull hgt.2, hgt.1, hgt.2⟩
    · rintro ⟨-, -, hgt, hlt⟩
      simp [hgt, hlt]

/-- Witness for C3 at a concrete column list, row list and row. -/
theorem C3_filter_agrees_with_highlight_witness :
    ((fun c => if c = rushBase then FVal.num 150 else FVal.nan) ∈
        filter_rush [fun c => if c = rushBase then FVal.num 150 else
          FVal.nan] ↔
      (fun c => if c = rushBase then FVal.num 150 else FVal.nan) ∈
          [fun c => if c = rushBase then FVal.num 150 else FVal.nan] ∧
        (highlight_trends [rushBase, rushDeltaCol, passBase, passDeltaCol]
          (fun c => if c = rushBase then FVal.num 150 else FVal.nan))[
          ([rushBase, rushDeltaCol, passBase,
            passDeltaCol].indexOf rushDeltaCol)]? = some greenStyle) ∧
    ((fun c => if c = rushBase then FVal.num 150 else FVal.nan) ∈
        filter_pass [fun c => if c = rushBase then FVal.num 150 else
          FVal.nan] ↔
      (fun c => if c = rushBase then FVal.num 150 else FVal.nan) ∈
          [fun c => if c = rushBase then FVal.num 150 else FVal.nan] ∧
        (highlight_trends [rushBase, rushDeltaCol, passBase, passDeltaCol]
          (fun c => if c = rushBase then FVal.num 150 else FVal.nan))[
          ([rushBase, rushDeltaCol, passBase,
            passDeltaCol].indexOf passDeltaCol)]? = some greenStyle) :=
  C3_filter_agrees_with_highlight
    [rushBase, rushDeltaCol, passBase, passDeltaCol]
    [fun c => if c = rushBase then FVal.num 150 else FVal.nan]
    (fun c => if c = rushBase then FVal.num 150 else FVal.nan)
    (by decide) (by decide) (by decide) (by decide)

/-! ## C1: the derived Δ% column -/

theorem addDelta_cell_other (m : Table) (b : String) (t : TeamKey)
    (c : String) (hc : c ≠ deltaName b) :
    (addDelta m b).cell t c = m.cell t c := by
  unfold addDelta
  split
  · simp [hc]
  · rfl

theorem addDelta_cols_mem (m : Table) (b : String) {c : String}
    (hc : c ∈ m.cols) : c ∈ (addDelta m b).cols := by
  unfold addDelta
  split
  · split <;> simp [hc]
  · exact hc

theorem addDelta_cell_delta (m : Table) (b : String) (t : TeamKey)
    (h : b ∈ m.cols ∧ last3Name b ∈ m.cols) :
    (addDelta m b).cell t (deltaName b) =
      deltaVal (m.cell t b) (m.cell t (last3Name b)) := by
  unfold addDelta
  rw [if_pos h]
  simp

theorem addDeltas_cell_delta (m : Table) (t : TeamKey) (b : String)
    (hb : b ∈ deltaBases) (hcol : b ∈ m.cols) (hl3 : last3Name b ∈ m.cols) :
    (addDeltas m).cell t (deltaName b) =
      deltaVal (m.cell t b) (m.cell t (last3Name b)) := by
  have hb' : b = rushBase ∨ b = passBase := by simpa [deltaBases] using hb
  unfold addDeltas deltaBases
  simp only [List.foldl_cons, List.foldl_nil]
  rcases hb' with rfl | rfl
  · rw [addDelta_cell_other _ passBase _ _ (by decide)]
    exact addDelta_cell_delta m rushBase t ⟨hcol, hl3⟩
  · rw [addDelta_cell_delta (addDelta m rushBase) passBase t
      ⟨addDelta_cols_mem m rushBase hcol, addDelta_cols_mem m rushBase hl3⟩]
    rw [addDelta_cell_other m rushBase t passBase (by decide),
      addDelta_cell_other m rushBase t (last3Name passBase) (by decide)]

/-- C1 (amended): for a delta-eligible base stat with both columns
present, the Δ% cell equals `(last3 - season) / season * 100` when both
operands are numbers and the season value is nonzero; it is missing when
either operand is missing, or when the season value is zero and the
Last-3 value is also zero; but when the season value is zero and the
Last-3 value is a nonzero number, the cell is a (non-missing) signed
infinity, not a missing value. -/
theorem C1_delta_column_characterization (m : Table) (t : TeamKey)
    (b : String) (hb : b ∈ deltaBases) (hcol : b ∈ m.cols)
    (hl3 : last3Name b ∈ m.cols) :
    (∀ σ lq : ℚ, m.cell t b = FVal.num σ → σ ≠ 0 →
      m.cell t (last3Name b) = FVal.num lq →
      (addDeltas m).cell t (deltaName b) =
        FVal.num ((lq - σ) / σ * 100)) ∧
    ((m.cell t b = FVal.nan ∨ m.cell t (last3Name b) = FVal.nan) →
      (addDeltas m).cell t (deltaName b) = FVal.nan) ∧
    ((m.cell t b = FVal.num 0 ∧ m.cell t (last3Name b) = FVal.num 0) →
      (addDeltas m).cell t (deltaName b) = FVal.nan) ∧
    (∀ lq : ℚ, m.cell t b = FVal.num 0 →
      m.cell t (last3Name b) = FVal.num lq → lq ≠ 0 →
      (addDeltas m).cell t (deltaName b) =
        (if 0 < lq then FVal.pinf else FVal.ninf)) := by
  have hcell := addDeltas_cell_delta m t b hb hcol hl3
  refine ⟨?_, ?_, ?_, ?_⟩
  · intro σ lq hσ hσne hlq
    rw [hcell, hσ, hlq]
    simp [deltaVal, fsub, fdiv, fmul, hσne]
  · intro hor
    rcases hor with hσ | hlq
    · rw [hcell, hσ]
      cases hl : m.cell t (last3Name b) <;>
        simp [deltaVal, fsub, fdiv, fmul]
    · rw [hcell, hlq]
      cases hσv : m.cell t b <;>
        simp [deltaVal, fsub, fdiv, fmul]
  · rintro ⟨hσ, hlq⟩
    rw [hcell, hσ, hlq]
    norm_num [deltaVal, fsub, fdiv, fmul]
  · intro lq hσ hlq hlqne
    rw [hcell, hσ, hlq]
    rcases lt_or_gt_of_ne hlqne with hneg | hpos
    · rw [if_neg (by exact absurd · (asymm hneg))]
      norm_num [deltaVal, fsub, fdiv, fmul, hlqne, hneg]
    · rw [if_pos hpos]
      have : ¬(lq < 0) := by exact asymm hpos
      norm_num [deltaVal, fsub, fdiv, fmul, hlqne, this]

/-- Counterexample for C1 as stated: with season value 0 and Last-3 value
5, the derived Δ% cell is positive infinity — a non-missing value — where
the claim requires a missing value. -/
theorem C1_delta_zero_season_counterexample :
    (addDeltas ⟨[some "A"], [rushBase, last3Name rushBase],
      fun t c => if t = some "A" then
        (if c = rushBase then FVal.num 0 else
          if c = last3Name rushBase then FVal.num 5 else FVal.nan)
        else FVal.nan⟩).cell (some "A") (deltaName rushBase) = FVal.pinf ∧
    FVal.pinf ≠ FVal.nan := by
  constructor
  · with_unfolding_all decide
  · decide

/-- Witness for C1 at a concrete one-row table with season 120 and
Last-3 108. -/
theorem C1_delta_column_characterization_witness :
    (addDeltas ⟨[some "A"], [rushBase, last3Name rushBase],
      fun t c => if t = some "A" then
        (if c = rushBase then FVal.num 120 else
          if c = last3Name rushBase then FVal.num 108 else FVal.nan)
        else FVal.nan⟩).cell (some "A") (deltaName rushBase) =
      FVal.num ((108 - 120) / 120 * 100) :=
  (C1_delta_column_characterization
    ⟨[some "A"], [rushBase, last3Name rushBase],
      fun t c => if t = some "A" then
        (if c = rushBase then FVal.num 120 else
          if c = last3Name rushBase then FVal.num 108 else FVal.nan)
        else FVal.nan⟩
    (some "A") rushBase (by decide) (by decide) (by decide)).1
    120 108 (by decide) (by norm_num) (by decide)

/-! ## C7 and C8: the sequential outer join -/

theorem mem_teams_mergeStep {x : TeamKey} (m t : Table) :
    x ∈ (mergeStep m t).teams ↔ x ∈ m.teams ∨ x ∈ t.teams := by
  simp only [mergeStep, List.mem_append, List.mem_filter,
    decide_eq_true_eq]
  by_cases hx : x ∈ m.teams <;> simp [hx]

theorem mem_teams_foldl (ts : List Table) (m : Table) (x : TeamKey) :
    x ∈ (ts.foldl mergeStep m).teams ↔
      x ∈ m.teams ∨ ∃ t ∈ ts, x ∈ t.teams := by
  induction ts generalizing m with
  | nil => simp
  | cons t ts ih =>
    simp only [List.foldl_cons, ih, mem_teams_mergeStep,
      List.mem_cons]
    constructor
    · rintro ((h | h) | ⟨u, hu, hx⟩)
      · exact Or.inl h
      · exact Or.inr ⟨t, Or.inl rfl, h⟩
      · exact Or.inr ⟨u, Or.inr hu, hx⟩
    · rintro (h | ⟨u, rfl | hu, hx⟩)
      · exact Or.inl (Or.inl h)
      · exact Or.inl (Or.inr hx)
      · exact Or.inr ⟨u, hu, hx⟩

theorem mem_teams_mergeAll (l : List Table) (x : TeamKey) :
    x ∈ (mergeAll l).teams ↔ ∃ t ∈ l, x ∈ t.teams := by
  cases l with
  | nil => simp [mergeAll, emptyTable]
  | cons t ts =>
    show x ∈ (ts.foldl mergeStep t).teams ↔ _
    rw [mem_teams_foldl]
    simp only [List.mem_cons]
    constructor
    · rintro (h | ⟨u, hu, hx⟩)
      · exact ⟨t, Or.inl rfl, h⟩
      · exact ⟨u, Or.inr hu, hx⟩
    · rintro ⟨u, rfl | hu, hx⟩
      · exact Or.inl hx
      · exact Or.inr ⟨u, hu, hx⟩

/-- C7: the team-key set of the sequential left-fold outer join is
invariant under permutation of the input tables. -/
theorem C7_merge_team_set_perm_invariant (l₁ l₂ : List Table)
    (h : l₁.Perm l₂) :
    (mergeAll l₁).teams.toFinset = (mergeAll l₂).teams.toFinset := by
  ext x
  simp only [List.mem_toFinset, mem_teams_mergeAll]
  constructor <;> rintro ⟨t, ht, hx⟩
  · exact ⟨t, h.mem_iff.mp ht, hx⟩
  · exact ⟨t, h.mem_iff.mpr ht, hx⟩

/-- Witness for C7: swapping two concrete single-team tables leaves the
merged team set unchanged. -/
theorem C7_merge_team_set_perm_invariant_witness :
    (mergeAll [⟨[some "A"], ["S1"], fun _ _ => FVal.nan⟩,
      ⟨[some "B"], ["S2"], fun _ _ => FVal.nan⟩]).teams.toFinset =
    (mergeAll [⟨[some "B"], ["S2"], fun _ _ => FVal.nan⟩,
      ⟨[some "A"], ["S1"], fun _ _ => FVal.nan⟩]).teams.toFinset :=
  C7_merge_team_set_perm_invariant _ _ (List.Perm.swap _ _ _)

theorem Wf_mergeStep (m t : Table) : (mergeStep m t).Wf := by
  intro x c hx
  rw [mem_teams_mergeStep] at hx
  push_neg at hx
  simp [mergeStep, hx.1, hx.2]

theorem foldl_cell_stable (ts : List Table) (m : Table) (hm : m.Wf)
    (x : TeamKey) (c : String) (hc : c ∈ m.cols) :
    (ts.foldl mergeStep m).cell x c =
      if x ∈ m.teams then m.cell x c else FVal.nan := by
  induction ts generalizing m with
  | nil =>
    simp only [List.foldl_nil]
    split
    · rfl
    · next hx => exact hm x c hx
  | cons t ts ih =>
    simp only [List.foldl_cons]
    rw [ih (mergeStep m t) (Wf_mergeStep m t) (by simp [mergeStep, hc])]
    by_cases hxm : x ∈ m.teams
    · rw [if_pos ((mem_teams_mergeStep m t).mpr (Or.inl hxm)), if_pos hxm]
      simp [mergeStep, hc, hxm]
    · by_cases hxt : x ∈ t.teams
      · rw [if_pos ((mem_teams_mergeStep m t).mpr (Or.inr hxt)),
          if_neg hxm]
        simp [mergeStep, hc, hxm]
      · rw [if_neg (fun h => by
          rcases (mem_teams_mergeStep m t).mp h with h | h
          exacts [hxm h, hxt h]), if_neg hxm]

theorem foldl_cell_absent (tb : Table) (x : TeamKey) (c : String)
    (hc : c ∈ tb.cols) (hx : x ∉ tb.teams) :
    ∀ (ts : List Table) (m : Table), m.Wf → tb ∈ ts → c ∉ m.cols →
      ts.Pairwise (fun a b => ∀ s ∈ a.cols, s ∉ b.cols) →
      (ts.foldl mergeStep m).cell x c = FVal.nan := by
  intro ts
  induction ts with
  | nil =>
    intro m _ htb _ _
    exact absurd htb (by simp)
  | cons t ts ih =>
    intro m hm htb hcm hdisj
    simp only [List.foldl_cons]
    rcases List.mem_cons.mp htb with rfl | htb'
    · have hcell : (mergeStep m tb).cell x c = FVal.nan := by
        simp [mergeStep, hcm, hx]
      rw [foldl_cell_stable ts (mergeStep m tb) (Wf_mergeStep m tb) x c
        (by simp [mergeStep, hc]), hcell]
      exact ite_self _
    · have hct : c ∉ t.cols := by
        intro hcc
        exact (List.pairwise_cons.mp hdisj).1 tb htb' c hcc hc
      exact ih (mergeStep m t) (Wf_mergeStep m t) htb'
        (by simp [mergeStep, hcm, hct]) (List.pairwise_cons.mp hdisj).2

/-- C8: every team present in at least one input table appears in the
merged table, and for each input table that does not contain the team the
merged cells in that table's columns are missing. -/
theorem C8_outer_join_team_presence_and_missing (l : List Table)
    (hwf : ∀ t ∈ l, t.Wf)
    (hdisj : l.Pairwise (fun a b => ∀ s ∈ a.cols, s ∉ b.cols))
    (x : TeamKey) (hx : ∃ t ∈ l, x ∈ t.teams) :
    x ∈ (mergeAll l).teams ∧
    ∀ tb ∈ l, x ∉ tb.teams → ∀ c ∈ tb.cols,
      (mergeAll l).cell x c = FVal.nan := by
  refine ⟨(mem_teams_mergeAll l x).mpr hx, ?_⟩
  intro tb htb hxtb c hc
  cases l with
  | nil => simp at htb
  | cons h ts =>
    show (ts.foldl mergeStep h).cell x c = FVal.nan
    rcases List.mem_cons.mp htb with rfl | htb'
    · rw [foldl_cell_stable ts tb (hwf tb (by simp)) x c hc, if_neg hxtb]
    · refine foldl_cell_absent tb x c hc hxtb ts h (hwf h (by simp)) htb'
        ?_ (List.pairwise_cons.mp hdisj).2
      intro hch
      exact (List.pairwise_cons.mp hdisj).1 tb htb' c hch hc

/-- Witness for C8: team A is present in the merge of two concrete
tables and its cell in the second table's column is missing. -/
theorem C8_outer_join_team_presence_and_missing_witness :
    (some "A") ∈ (mergeAll [⟨[some "A"], ["S1"], fun _ _ => FVal.nan⟩,
        ⟨[some "B"], ["S2"], fun _ _ => FVal.nan⟩]).teams ∧
    ∀ tb ∈ [(⟨[some "A"], ["S1"], fun _ _ => FVal.nan⟩ : Table),
        ⟨[some "B"], ["S2"], fun _ _ => FVal.nan⟩],
      (some "A") ∉ tb.teams → ∀ c ∈ tb.cols,
        (mergeAll [⟨[some "A"], ["S1"], fun _ _ => FVal.nan⟩,
          ⟨[some "B"], ["S2"], fun _ _ => FVal.nan⟩]).cell (some "A") c =
          FVal.nan :=
  C8_outer_join_team_presence_and_missing
    [⟨[some "A"], ["S1"], fun _ _ => FVal.nan⟩,
      ⟨[some "B"], ["S2"], fun _ _ => FVal.nan⟩]
    (by intro t ht x c hx; rcases List.mem_cons.mp ht with rfl | ht' <;>
      first
        | rfl
        | (rcases List.mem_cons.mp ht' with rfl | h <;>
            first | rfl | simp at h))
    (by
      refine List.pairwise_cons.mpr ⟨?_, List.pairwise_singleton _ _⟩
      intro b hb s hs
      rcases List.mem_singleton.mp hb with rfl
      have hs1 : s = "S1" := by simpa using hs
      subst hs1
      decide)
    (some "A")
    ⟨⟨[some "A"], ["S1"], fun _ _ => FVal.nan⟩, by simp, by simp⟩

/-! ## C10 and C4: per-stat outcomes and the aggregator -/

theorem data_append_ne_nil {s t : String} (hs : s.data ≠ []) :
    (s ++ t).data ≠ [] := by
  rw [String.data_append]
  intro h
  rcases List.append_eq_nil.mp h with ⟨h1, -⟩
  exact hs h1

theorem str_ne_empty_of_data {s : String} (hs : s.data ≠ []) : s ≠ "" := by
  intro h
  subst h
  exact hs rfl

theorem scrape_table_cases (outcome : FetchOutcome) (name : String) :
    (∃ df, scrape_table outcome name = (some df, none)) ∨
    (∃ e, scrape_table outcome name = (none, some e) ∧ e ≠ "") := by
  cases outcome with
  | exn e =>
    exact Or.inr ⟨_, rfl, str_ne_empty_of_data
      (data_append_ne_nil (data_append_ne_nil (data_append_ne_nil
        (by decide))))⟩
  | noTable =>
    exact Or.inr ⟨_, rfl, str_ne_empty_of_data
      (data_append_ne_nil (by decide))⟩
  | found headers trs =>
    rcases hdf : mkDF ((trs.drop 1).filter (fun r => r ≠ [])) headers with
      e | df0
    · simp only [scrape_table, hdf]
      exact Or.inr ⟨_, rfl, str_ne_empty_of_data
        (data_append_ne_nil (data_append_ne_nil (data_append_ne_nil
          (by decide))))⟩
    · simp only [scrape_table, hdf]
      split
      · exact Or.inr ⟨_, rfl, str_ne_empty_of_data
          (data_append_ne_nil (by decide))⟩
      · split
        · split
          · exact Or.inl ⟨_, rfl⟩
          · exact Or.inl ⟨_, rfl⟩
        · exact Or.inr ⟨_, rfl, str_ne_empty_of_data
            (data_append_ne_nil (by decide))⟩

/-- C10: `scrape_table` always returns exactly one of a normalized table
with no error, or no table with a nonempty human-readable error; a fetch
exception or a page with no `<table>` yields the error outcome, and so do
unidentifiable Team/stat columns. -/
theorem C10_scrape_table_dichotomy (outcome : FetchOutcome)
    (name : String) :
    ((∃ df, scrape_table outcome name = (some df, none)) ∨
      (∃ e, scrape_table outcome name = (none, some e) ∧ e ≠ "")) ∧
    (∀ msg, scrape_table (.exn msg) name =
      (none, some ("Error scraping " ++ name ++ ": " ++ msg))) ∧
    (scrape_table .noTable name =
      (none, some ("No table found for " ++ name))) ∧
    (∀ headers trs df0,
      mkDF ((trs.drop 1).filter (fun r => r ≠ [])) headers = .ok df0 →
      (pyFalsy ((dropCols df0).headers.find?
          (fun c => strContainsLower c "team")) ||
        pyFalsy ((dropCols df0).headers.find? (fun c =>
          pyNe c ((dropCols df0).headers.find?
            (fun c => strContainsLower c "team")) &&
          ! strContainsLower c "last 3"))) = true →
      scrape_table (.found headers trs) name =
        (none, some ("Could not find Team or Stat column for " ++ name))) := by
  refine ⟨scrape_table_cases outcome name, fun msg => rfl, rfl, ?_⟩
  intro headers trs df0 hmk hcond
  simp only [scrape_table, hmk]
  rw [if_pos hcond]

/-- Witness for C10: a page whose only header is `X` has no Team column
and yields the schema-mismatch error. -/
theorem C10_scrape_table_dichotomy_witness :
    scrape_table (.found ["X"] []) "S" =
      (none, some "Could not find Team or Stat column for S") :=
  (C10_scrape_table_dichotomy (.found ["X"] []) "S").2.2.2 ["X"] []
    ⟨["X"], []⟩ rfl (by decide)

theorem length_filterMap_all_some {α β : Type} (f : α → Option β) :
    ∀ l : List α, (∀ a ∈ l, (f a).isSome) →
      (l.filterMap f).length = l.length := by
  intro l
  induction l with
  | nil => simp
  | cons a t ih =>
    intro h
    rcases Option.isSome_iff_exists.mp (h a (by simp)) with ⟨b, hb⟩
    simp [List.filterMap_cons, hb, ih (fun x hx => h x (by simp [hx]))]

theorem collect_foldl (fetch : String → FetchOutcome)
    (ps : List (String × String)) (acc : List NormDF × List String) :
    (ps.foldl (collectStep fetch) acc).1 =
      acc.1 ++ ps.filterMap
        (fun p => (scrape_table (fetch (BASE_URL ++ p.2)) p.1).1) ∧
    (ps.foldl (collectStep fetch) acc).2 =
      acc.2 ++ ps.filterMap
        (fun p => (scrape_table (fetch (BASE_URL ++ p.2)) p.1).2) := by
  induction ps generalizing acc with
  | nil => simp
  | cons p ps ih =>
    simp only [List.foldl_cons, List.filterMap_cons]
    rcases scrape_table_cases (fetch (BASE_URL ++ p.2)) p.1 with
      ⟨df, hdf⟩ | ⟨e, he, hne⟩
    · have hstep : collectStep fetch acc p = (acc.1 ++ [df], acc.2) := by
        unfold collectStep
        rw [hdf]
        simp
      constructor
      · rw [hstep, (ih _).1, hdf]
        simp
      · rw [hstep, (ih _).2, hdf]
    · have hstep : collectStep fetch acc p = (acc.1, acc.2 ++ [e]) := by
        unfold collectStep
        rw [he]
        simp [hne]
      constructor
      · rw [hstep, (ih _).1, he]
      · rw [hstep, (ih _).2, he]
        simp

/-- C4: `scrape_all_stats` collects exactly the error string of each
failed stat, in catalog order (one entry per failure, none for a
success); and if every configured stat fails, it returns the empty table
together with one error per configured stat. -/
theorem C4_aggregator_errors_and_empty (fetch : String → FetchOutcome) :
    (scrape_all_stats fetch).2 =
      STAT_PAGES.filterMap
        (fun p => (scrape_table (fetch (BASE_URL ++ p.2)) p.1).2) ∧
    ((∀ p ∈ STAT_PAGES,
        ((scrape_table (fetch (BASE_URL ++ p.2)) p.1).2).isSome) →
      (scrape_all_stats fetch).1 = emptyTable ∧
      (scrape_all_stats fetch).2.length = STAT_PAGES.length) := by
  have hfold := collect_foldl fetch STAT_PAGES ([], [])
  have hsnd : (scrape_all_stats fetch).2 =
      (STAT_PAGES.foldl (collectStep fetch) ([], [])).2 := by
    unfold scrape_all_stats
    rcases h : STAT_PAGES.foldl (collectStep fetch) ([], []) with ⟨dfs, errs⟩
    simp only [h]
    cases dfs <;> rfl
  constructor
  · rw [hsnd, hfold.2]
    simp
  · intro hall
    have hnone : ∀ p ∈ STAT_PAGES,
        (scrape_table (fetch (BASE_URL ++ p.2)) p.1).1 = none := by
      intro p hp
      rcases scrape_table_cases (fetch (BASE_URL ++ p.2)) p.1 with
        ⟨df, hdf⟩ | ⟨e, he, -⟩
      · have := hall p hp
        rw [hdf] at this
        simp at this
      · rw [he]
    have hdfs : (STAT_PAGES.foldl (collectStep fetch) ([], [])).1 = [] := by
      rw [hfold.1]
      simp only [List.nil_append]
      exact List.filterMap_eq_nil_iff.mpr hnone
    constructor
    · unfold scrape_all_stats
      rcases h : STAT_PAGES.foldl (collectStep fetch) ([], []) with
        ⟨dfs, errs⟩
      have hdfs' : dfs = [] := by simpa [h] using hdfs
      subst hdfs'
      simp only [h]
    · rw [hsnd, hfold.2]
      simp only [List.nil_append]
      exact length_filterMap_all_some _ STAT_PAGES hall

/-- Witness for C4: when every fetch finds no table, the result is the
empty table plus one error per configured stat. -/
theorem C4_aggregator_errors_and_empty_witness :
    (scrape_all_stats (fun _ => FetchOutcome.noTable)).1 = emptyTable ∧
    (scrape_all_stats (fun _ => FetchOutcome.noTable)).2.length =
      STAT_PAGES.length :=
  (C4_aggregator_errors_and_empty (fun _ => FetchOutcome.noTable)).2
    (fun _ _ => rfl)

/-! ## C5: zero data rows and the row filter of the normalizer -/

/-- Counterexample for C5 as stated: a row with one cell (fewer than the
two headers) is not skipped — it survives normalization as team `B` with
a missing stat value, giving a two-row StatTable where the claim demands
one row. -/
theorem C5_short_row_counterexample :
    scrape_table (.found ["Team", "Yds"] [[], ["A", "1"], ["B"]]) "S" =
      (some ⟨[some "A", some "B"], ["S"], [[FVal.num 1], [FVal.nan]]⟩,
        none) := by
  with_unfolding_all decide

/-- C5 (amended): with identifiable Team and stat columns, a page whose
table has zero data rows normalizes to an empty StatTable, not an error;
prior to normalization only rows with zero data cells are dropped — a
non-empty list of kept rows is built into a frame with exactly one row
per kept row (short rows padded with missing values) when the widest row
matches the header count, and otherwise frame construction fails (an
error, not a silent skip). -/
theorem C5_zero_rows_and_row_filtering :
    (∀ (headers : List String) (trs : List (List String)) (stat tc sc :
        String),
      (trs.drop 1).filter (fun r => r ≠ []) = [] →
      (dropCols ⟨headers, []⟩).headers.find?
        (fun c => strContainsLower c "team") = some tc → tc ≠ "" →
      (dropCols ⟨headers, []⟩).headers.find?
        (fun c => pyNe c (some tc) && ! strContainsLower c "last 3") =
          some sc → sc ≠ "" →
      ∃ n : NormDF, scrape_table (.found headers trs) stat =
        (some n, none) ∧ n.team = [] ∧ n.vals = []) ∧
    (∀ (rows : List (List String)) (headers : List String), rows ≠ [] →
      ((rows.map List.length).foldl max 0 = headers.length →
        ∃ df, mkDF rows headers = .ok df ∧
          df.rows.length = rows.length) ∧
      ((rows.map List.length).foldl max 0 ≠ headers.length →
        ∃ e, mkDF rows headers = .error e)) := by
  constructor
  · intro headers trs stat tc sc h0 hteam htc hstat hsc
    have hmk : mkDF ((trs.drop 1).filter (fun r => r ≠ [])) headers =
        .ok ⟨headers, []⟩ := by
      rw [h0]
      rfl
    simp only [scrape_table, hmk]
    rw [hteam, hstat]
    rw [if_neg (by simp [pyFalsy, htc, hsc])]
    rcases hl3 : (dropCols (⟨headers, []⟩ : RawDF)).headers.find?
        (fun c => strContainsLower c "last 3") with _ | lc <;>
      exact ⟨_, rfl, rfl, rfl⟩
  · intro rows headers hne
    constructor
    · intro hk
      cases rows with
      | nil => exact absurd rfl hne
      | cons r rs =>
        have hmk : mkDF (r :: rs) headers = .ok ⟨headers,
            (r :: rs).map (fun row => row.map some ++
              List.replicate ((((r :: rs).map List.length).foldl max 0) -
                row.length) none)⟩ := by
          simp only [mkDF]
          rw [if_pos hk]
        exact ⟨_, hmk, by simp⟩
    · intro hk
      cases rows with
      | nil => exact absurd rfl hne
      | cons r rs =>
        have herr : mkDF (r :: rs) headers = .error
            (toString headers.length ++
              " columns passed, passed data had " ++
              toString (((r :: rs).map List.length).foldl max 0) ++
              " columns") := by
          simp only [mkDF]
          rw [if_neg hk]
        exact ⟨_, herr⟩

/-- Witness for C5 (amended) at a zero-row page and a two-row ragged
grid. -/
theorem C5_zero_rows_and_row_filtering_witness :
    (∃ n : NormDF, scrape_table (.found ["Team", "Yds"] [[]]) "S" =
      (some n, none) ∧ n.team = [] ∧ n.vals = []) ∧
    (∃ df, mkDF [["A"], ["B", "2"]] ["Team", "Yds"] = .ok df ∧
      df.rows.length = [["A"], ["B", "2"]].length) := by
  constructor
  · exact C5_zero_rows_and_row_filtering.1 ["Team", "Yds"] [[]] "S"
      "Team" "Yds" (by decide) (by decide) (by decide) (by decide)
      (by decide)
  · exact (C5_zero_rows_and_row_filtering.2 [["A"], ["B", "2"]]
      ["Team", "Yds"] (by decide)).1 (by decide)

/-! ## C9: the column reorder -/

theorem indexOf_append_cons {y : String} (l₁ l₂ : List String)
    (h : y ∉ l₁) : (l₁ ++ y :: l₂).indexOf y = l₁.length := by
  induction l₁ with
  | nil => simp [List.indexOf_cons_self]
  | cons a t ih =>
    have ha : a ≠ y := fun e => h (e ▸ List.mem_cons_self a t)
    simp only [List.cons_append, List.indexOf_cons_ne _ ha,
      List.length_cons]
    rw [ih (fun hm => h (List.mem_cons_of_mem a hm))]

theorem insertIdx_after (l₁ : List String) (y x : String)
    (l₂ : List String) :
    (l₁ ++ y :: l₂).insertIdx (l₁.length + 1) x = l₁ ++ y :: x :: l₂ := by
  induction l₁ with
  | nil => simp [List.insertIdx_succ_cons, List.insertIdx_zero]
  | cons a t ih =>
    simp only [List.cons_append, List.length_cons,
      List.insertIdx_succ_cons, ih]

theorem erase_at_end (d : String) (r : List String) :
    ∀ l : List String, d ∉ l → (l ++ d :: r).erase d = l ++ r := by
  intro l
  induction l with
  | nil =>
    intro _
    simp only [List.nil_append]
    exact List.erase_cons_head d r
  | cons a t ih =>
    intro h
    have ha : a ≠ d := fun e => h (e ▸ List.mem_cons_self a t)
    simp only [List.cons_append]
    rw [List.erase_cons_tail (by simp [ha])]
    rw [ih (fun hm => h (List.mem_cons_of_mem a hm))]

theorem erase_middle (p : List String) (l3 : String) (q : List String)
    (d : String) (r : List String) (hp : d ∉ p) (hl : l3 ≠ d)
    (hq : d ∉ q) :
    (p ++ l3 :: (q ++ d :: r)).erase d = p ++ l3 :: (q ++ r) := by
  have h1 : d ∉ p ++ l3 :: q := by
    intro hm
    simp only [List.mem_append, List.mem_cons] at hm
    rcases hm with hm | hm | hm
    · exact hp hm
    · exact hl hm.symm
    · exact hq hm
  calc (p ++ l3 :: (q ++ d :: r)).erase d
      = ((p ++ l3 :: q) ++ d :: r).erase d := by simp
    _ = (p ++ l3 :: q) ++ r := erase_at_end d r _ h1
    _ = p ++ l3 :: (q ++ r) := by simp

theorem moveDelta_spec (b : String) (p q r : List String)
    (hl3p : last3Name b ∉ p) (hdp : deltaName b ∉ p)
    (hdq : deltaName b ∉ q) (hdl3 : last3Name b ≠ deltaName b) :
    moveDelta (p ++ last3Name b :: (q ++ deltaName b :: r)) b =
      p ++ last3Name b :: deltaName b :: (q ++ r) := by
  unfold moveDelta
  rw [if_pos ⟨by simp, by simp⟩]
  rw [indexOf_append_cons p (q ++ deltaName b :: r) hl3p]
  rw [erase_middle p (last3Name b) q (deltaName b) r hdp hdl3 hdq]
  exact insertIdx_after p (last3Name b) (deltaName b) (q ++ r)

theorem moveDelta_no_guard (cs : List String) (b : String)
    (h : ¬(last3Name b ∈ cs ∧ deltaName b ∈ cs)) : moveDelta cs b = cs := by
  unfold moveDelta
  rw [if_neg h]

/-- C9: on the merged column lists the pipeline can produce — the delta
columns of the delta-eligible base stats whose Last-3 column exists are
appended at the end, in order — `reorder` places each delta column
immediately after its Last-3 column, and the relative order of all other
columns is unchanged.  The three parts cover full success (both pairs
present), only the rushing pair present, and only the passing pair
present. -/
theorem C9_reorder_delta_after_last3 :
    (∀ a b c : List String, last3Name rushBase ∉ a →
      last3Name passBase ∉ a → last3Name passBase ∉ b →
      deltaName rushBase ∉ a → deltaName rushBase ∉ b →
      deltaName rushBase ∉ c →
      deltaName passBase ∉ a → deltaName passBase ∉ b →
      deltaName passBase ∉ c →
      reorder (a ++ last3Name rushBase :: (b ++ last3Name passBase ::
          (c ++ [deltaName rushBase, deltaName passBase]))) =
        a ++ last3Name rushBase :: deltaName rushBase ::
          (b ++ last3Name passBase :: deltaName passBase :: c) ∧
      (reorder (a ++ last3Name rushBase :: (b ++ last3Name passBase ::
          (c ++ [deltaName rushBase, deltaName passBase])))).filter
          (fun x => decide (x ≠ deltaName rushBase) &&
            decide (x ≠ deltaName passBase)) =
        (a ++ last3Name rushBase :: (b ++ last3Name passBase ::
          (c ++ [deltaName rushBase, deltaName passBase]))).filter
          (fun x => decide (x ≠ deltaName rushBase) &&
            decide (x ≠ deltaName passBase))) ∧
    (∀ a b : List String, last3Name rushBase ∉ a →
      deltaName rushBase ∉ a → deltaName rushBase ∉ b →
      deltaName passBase ∉ a → deltaName passBase ∉ b →
      reorder (a ++ last3Name rushBase :: (b ++ [deltaName rushBase])) =
        a ++ last3Name rushBase :: deltaName rushBase :: b ∧
      (reorder (a ++ last3Name rushBase ::
          (b ++ [deltaName rushBase]))).filter
          (fun x => decide (x ≠ deltaName rushBase) &&
            decide (x ≠ deltaName passBase)) =
        (a ++ last3Name rushBase :: (b ++ [deltaName rushBase])).filter
          (fun x => decide (x ≠ deltaName rushBase) &&
            decide (x ≠ deltaName passBase))) ∧
    (∀ a b : List String, last3Name passBase ∉ a →
      deltaName passBase ∉ a → deltaName passBase ∉ b →
      deltaName rushBase ∉ a → deltaName rushBase ∉ b →
      reorder (a ++ last3Name passBase :: (b ++ [deltaName passBase])) =
        a ++ last3Name passBase :: deltaName passBase :: b ∧
      (reorder (a ++ last3Name passBase ::
          (b ++ [deltaName passBase]))).filter
          (fun x => decide (x ≠ deltaName rushBase) &&
            decide (x ≠ deltaName passBase)) =
        (a ++ last3Name passBase :: (b ++ [deltaName passBase])).filter
          (fun x => decide (x ≠ deltaName rushBase) &&
            decide (x ≠ deltaName passBase))) := by
  refine ⟨?_, ?_, ?_⟩
  · intro a b c h1 h2 h3 h4 h5 h6 h7 h8 h9
    have hmain : reorder (a ++ last3Name rushBase ::
        (b ++ last3Name passBase ::
          (c ++ [deltaName rushBase, deltaName passBase]))) =
        a ++ last3Name rushBase :: deltaName rushBase ::
          (b ++ last3Name passBase :: deltaName passBase :: c) := by
      unfold reorder deltaBases
      simp only [List.foldl_cons, List.foldl_nil]
      have hshape : a ++ last3Name rushBase ::
          (b ++ last3Name passBase ::
            (c ++ [deltaName rushBase, deltaName passBase])) =
          a ++ last3Name rushBase :: ((b ++ last3Name passBase :: c) ++
            deltaName rushBase :: [deltaName passBase]) := by
        simp
      rw [hshape, moveDelta_spec rushBase a
        (b ++ last3Name passBase :: c) [deltaName passBase] h1 h4 ?hq
        (by decide)]
      case hq =>
        intro hm
        simp only [List.mem_append, List.mem_cons, List.not_mem_nil,
          or_false] at hm
        rcases hm with hm | hm | hm
        · exact h5 hm
        · exact absurd hm (by decide)
        · exact h6 hm
      have hshape2 : a ++ last3Name rushBase :: deltaName rushBase ::
          ((b ++ last3Name passBase :: c) ++ [deltaName passBase]) =
          (a ++ last3Name rushBase :: deltaName rushBase :: b) ++
            last3Name passBase :: (c ++ deltaName passBase :: []) := by
        simp
      rw [hshape2, moveDelta_spec passBase
        (a ++ last3Name rushBase :: deltaName rushBase :: b) c [] ?hp2
        ?hdp2 h9 (by decide)]
      · simp
      case hp2 =>
        intro hm
        simp only [List.mem_append, List.mem_cons] at hm
        rcases hm with hm | hm | hm | hm
        · exact h2 hm
        · exact absurd hm (by decide)
        · exact absurd hm (by decide)
        · exact h3 hm
      case hdp2 =>
        intro hm
        simp only [List.mem_append, List.mem_cons] at hm
        rcases hm with hm | hm | hm | hm
        · exact h7 hm
        · exact absurd hm (by decide)
        · exact absurd hm (by decide)
        · exact h8 hm
    refine ⟨hmain, ?_⟩
    rw [hmain]
    have hfa : a.filter (fun x => decide (x ≠ deltaName rushBase) &&
        decide (x ≠ deltaName passBase)) = a :=
      List.filter_eq_self.mpr (fun x hx => by
        simp only [Bool.and_eq_true, decide_eq_true_eq]
        exact ⟨fun e => h4 (e ▸ hx), fun e => h7 (e ▸ hx)⟩)
    have hfb : b.filter (fun x => decide (x ≠ deltaName rushBase) &&
        decide (x ≠ deltaName passBase)) = b :=
      List.filter_eq_self.mpr (fun x hx => by
        simp only [Bool.and_eq_true, decide_eq_true_eq]
        exact ⟨fun e => h5 (e ▸ hx), fun e => h8 (e ▸ hx)⟩)
    have hfc : c.filter (fun x => decide (x ≠ deltaName rushBase) &&
        decide (x ≠ deltaName passBase)) = c :=
      List.filter_eq_self.mpr (fun x hx => by
        simp only [Bool.and_eq_true, decide_eq_true_eq]
        exact ⟨fun e => h6 (e ▸ hx), fun e => h9 (e ▸ hx)⟩)
    have e1 : (decide (last3Name rushBase ≠ deltaName rushBase) &&
        decide (last3Name rushBase ≠ deltaName passBase)) = true := by
      decide
    have e2 : (decide (last3Name passBase ≠ deltaName rushBase) &&
        decide (last3Name passBase ≠ deltaName passBase)) = true := by
      decide
    have e3 : (decide (deltaName rushBase ≠ deltaName rushBase) &&
        decide (deltaName rushBase ≠ deltaName passBase)) = false := by
      decide
    have e4 : (decide (deltaName passBase ≠ deltaName rushBase) &&
        decide (deltaName passBase ≠ deltaName passBase)) = false := by
      decide
    simp [List.filter_append, List.filter_cons, hfa, hfb, hfc, e1, e2,
      e3, e4]
  · intro a b h1 h2 h3 h4 h5
    have hmain : reorder (a ++ last3Name rushBase ::
        (b ++ [deltaName rushBase])) =
        a ++ last3Name rushBase :: deltaName rushBase :: b := by
      unfold reorder deltaBases
      simp only [List.foldl_cons, List.foldl_nil]
      rw [moveDelta_spec rushBase a b [] h1 h2 h3 (by decide)]
      rw [moveDelta_no_guard _ passBase ?hng]
      · simp
      case hng =>
        rintro ⟨-, hdP⟩
        simp only [List.mem_append, List.mem_cons, List.not_mem_nil,
          or_false] at hdP
        rcases hdP with h | h | h | h
        · exact h4 h
        · exact absurd h (by decide)
        · exact absurd h (by decide)
        · exact h5 h
    refine ⟨hmain, ?_⟩
    rw [hmain]
    have hfa : a.filter (fun x => decide (x ≠ deltaName rushBase) &&
        decide (x ≠ deltaName passBase)) = a :=
      List.filter_eq_self.mpr (fun x hx => by
        simp only [Bool.and_eq_true, decide_eq_true_eq]
        exact ⟨fun e => h2 (e ▸ hx), fun e => h4 (e ▸ hx)⟩)
    have hfb : b.filter (fun x => decide (x ≠ deltaName rushBase) &&
        decide (x ≠ deltaName passBase)) = b :=
      List.filter_eq_self.mpr (fun x hx => by
        simp only [Bool.and_eq_true, decide_eq_true_eq]
        exact ⟨fun e => h3 (e ▸ hx), fun e => h5 (e ▸ hx)⟩)
    have e1 : (decide (last3Name rushBase ≠ deltaName rushBase) &&
        decide (last3Name rushBase ≠ deltaName passBase)) = true := by
      decide
    have e3 : (decide (deltaName rushBase ≠ deltaName rushBase) &&
        decide (deltaName rushBase ≠ deltaName passBase)) = false := by
      decide
    simp [List.filter_append, List.filter_cons, hfa, hfb, e1, e3]
  · intro a b h1 h2 h3 h4 h5
    have hmain : reorder (a ++ last3Name passBase ::
        (b ++ [deltaName passBase])) =
        a ++ last3Name passBase :: deltaName passBase :: b := by
      unfold reorder deltaBases
      simp only [List.foldl_cons, List.foldl_nil]
      rw [moveDelta_no_guard _ rushBase ?hng]
      case hng =>
        rintro ⟨-, hdR⟩
        simp only [List.mem_append, List.mem_cons, List.not_mem_nil,
          or_false] at hdR
        rcases hdR with h | h | h | h
        · exact h4 h
        · exact absurd h (by decide)
        · exact h5 h
        · exact absurd h (by decide)
      rw [moveDelta_spec passBase a b [] h1 h2 h3 (by decide)]
      simp
    refine ⟨hmain, ?_⟩
    rw [hmain]
    have hfa : a.filter (fun x => decide (x ≠ deltaName rushBase) &&
        decide (x ≠ deltaName passBase)) = a :=
      List.filter_eq_self.mpr (fun x hx => by
        simp only [Bool.and_eq_true, decide_eq_true_eq]
        exact ⟨fun e => h4 (e ▸ hx), fun e => h2 (e ▸ hx)⟩)
    have hfb : b.filter (fun x => decide (x ≠ deltaName rushBase) &&
        decide (x ≠ deltaName passBase)) = b :=
      List.filter_eq_self.mpr (fun x hx => by
        simp only [Bool.and_eq_true, decide_eq_true_eq]
        exact ⟨fun e => h5 (e ▸ hx), fun e => h3 (e ▸ hx)⟩)
    have e2 : (decide (last3Name passBase ≠ deltaName rushBase) &&
        decide (last3Name passBase ≠ deltaName passBase)) = true := by
      decide
    have e4 : (decide (deltaName passBase ≠ deltaName rushBase) &&
        decide (deltaName passBase ≠ deltaName passBase)) = false := by
      decide
    simp [List.filter_append, List.filter_cons, hfa, hfb, e2, e4]

/-- Witness for C9 at concrete column layouts: full success and a
partial-success merge with only the rushing pair. -/
theorem C9_reorder_delta_after_last3_witness :
    reorder (["Team"] ++ last3Name rushBase :: ([] ++
        last3Name passBase :: ([] ++
          [deltaName rushBase, deltaName passBase]))) =
      ["Team"] ++ last3Name rushBase :: deltaName rushBase ::
        ([] ++ last3Name passBase :: deltaName passBase :: []) ∧
    reorder (["Team"] ++ last3Name rushBase ::
        ([rushBase] ++ [deltaName rushBase])) =
      ["Team"] ++ last3Name rushBase :: deltaName rushBase ::
        [rushBase] :=
  ⟨(C9_reorder_delta_after_last3.1 ["Team"] [] [] (by decide) (by decide)
      (by decide) (by decide) (by decide) (by decide) (by decide)
      (by decide) (by decide)).1,
    (C9_reorder_delta_after_last3.2.1 ["Team"] [rushBase] (by decide)
      (by decide) (by decide) (by decide) (by decide)).1⟩
